import Mathlib

/-!
Shallow embedding of the acquisition–aggregation–merge pipeline of
`etl_script.py` and `web/backend/app.py` (water-resource ETL).

Timestamps are modelled as integers (hours); the canonical buckets of a
day `d` are `24*d + h` for `h ∈ {0, 6, 12, 18}`.  A `SensorSeries` is the
row list of the pandas DataFrame: each row is a timestamp together with
the partial record of non-NaN cells (sensor id → value).  Values are
rationals standing for the floats of the source.
-/

namespace ETL

/-- One entry of the `"sensors"` list of a fetched payload:
`{sensor: ..., observations: [{value: ...}, ...]}` (observation values
already parsed, as `float(obs["value"])` does in the source). -/
structure SensorEntry where
  sensor : String
  observations : List ℚ
deriving DecidableEq, Repr

/-- The `"sensors"` list of a successful fetch (`data_day["sensors"]`). -/
abbrev Payload := List SensorEntry

/-- The non-NaN cells of one DataFrame row: sensor id → value. -/
abbrev Record := List (String × ℚ)

/-- One DataFrame row: index label (timestamp) and its cells. -/
abbrev Row := Int × Record

/-- The row list of a per-category DataFrame. -/
abbrev SensorSeries := List Row

/-- The index of the frame: the list of row timestamps. -/
def tsOf (s : SensorSeries) : List Int := s.map Prod.fst

/-- `df.loc[t]` read access: the first row labelled `t`. -/
def rowAt (s : SensorSeries) (t : Int) : Option Row :=
  s.find? (fun r => r.1 == t)

/-- `df.loc[t, sid]` read access: the cell of sensor `sid` at timestamp
`t`, `none` standing for NaN / missing. -/
def valueAt (s : SensorSeries) (t : Int) (sid : String) : Option ℚ :=
  (rowAt s t).bind (fun r => r.2.lookup sid)

/-- Arithmetic mean, as `np.mean` on a nonempty list. -/
def mean (l : List ℚ) : ℚ := l.sum / (l.length : ℚ)

/-- Round to the nearest integer, ties to even — the rounding rule of
`np.round`. -/
def roundHalfEven (q : ℚ) : ℤ :=
  if q - q.floor < 1/2 then q.floor
  else if 1/2 < q - q.floor then q.floor + 1
  else if q.floor % 2 = 0 then q.floor else q.floor + 1

/-- `np.mean(...).round(4)`'s rounding step: 4 decimal digits. -/
def round4 (q : ℚ) : ℚ := (roundHalfEven (q * 10000) : ℚ) / 10000

/-- Write one cell of a row's record, as a pandas cell assignment does:
overwrite the sensor's cell if present, create it otherwise. -/
def setCell (rec : Record) (sid : String) (v : ℚ) : Record :=
  if rec.any (fun p => p.1 == sid) then
    rec.map (fun p => if p.1 == sid then (sid, v) else p)
  else rec ++ [(sid, v)]

/-- `df.loc[tr, sid] = v`: update the cell in every row labelled `tr`,
or append a fresh row at the end when no row carries that label. -/
def setLoc (df : SensorSeries) (tr : Int) (sid : String) (v : ℚ) : SensorSeries :=
  if df.any (fun r => r.1 == tr) then
    df.map (fun r => if r.1 == tr then (tr, setCell r.2 sid v) else r)
  else df ++ [(tr, [(sid, v)])]

/-- Processing of one sensor entry of a bucket's payload
(`if sensor["observations"]: df.loc[tr, sensor_id] = mean.round(4)`). -/
def applyEntry (tr : Int) (e : SensorEntry) (df : SensorSeries) : SensorSeries :=
  if e.observations.isEmpty then df
  else setLoc df tr e.sensor (round4 (mean e.observations))

/-- Processing of one bucket's fetch result (`none` = failed fetch or a
body without a `"sensors"` key, which the source skips). -/
def aggBucket (df : SensorSeries) (tr : Int) : Option Payload → SensorSeries
  | none => df
  | some p => p.foldl (fun acc e => applyEntry tr e acc) df

/-- The four canonical buckets of a day
(`read_date_dt.replace(hour=i, ...) for i in [0, 6, 12, 18]`). -/
def bucketsOf (day : Int) : List Int :=
  [24 * day, 24 * day + 6, 24 * day + 12, 24 * day + 18]

/-- Fold of `aggBucket` over a bucket list (the `for tr, data_day in
zip(time_ranges, results)` loop). -/
def aggOver (f : Int → Option Payload) (bs : List Int) (df : SensorSeries) : SensorSeries :=
  bs.foldl (fun acc b => aggBucket acc b (f b)) df

/-- `get_sensors_data_day_async` for one category: the day frame built
from an empty frame over the day's four buckets; `f` gives each bucket's
fetch result (`None` on failure). -/
def sensorsDataDay (day : Int) (f : Int → Option Payload) : SensorSeries :=
  aggOver f (bucketsOf day) []

/-- Stable ascending insertion by timestamp (inserted row goes before
strictly greater keys and after equal or smaller ones seen so far; the
`foldr` below makes the overall sort stable). -/
def insertAsc (x : Row) : SensorSeries → SensorSeries
  | [] => [x]
  | y :: ys => if x.1 ≤ y.1 then x :: y :: ys else y :: insertAsc x ys

/-- Stable sort of the rows by ascending timestamp. -/
def sortAscTs (s : SensorSeries) : SensorSeries := s.foldr insertAsc []

/-- `df.sort_index(ascending=False)`: pandas sorts ascending and then
reverses the indexer, so rows with equal timestamps end up in reversed
input order. -/
def sortDescTs (s : SensorSeries) : SensorSeries := (sortAscTs s).reverse

/-- `df[~df.index.duplicated(keep="first")]`: keep each timestamp's
first occurrence, tracking the labels already seen. -/
def dedupAux (seen : List Int) : SensorSeries → SensorSeries
  | [] => []
  | r :: rs =>
    if r.1 ∈ seen then dedupAux seen rs
    else r :: dedupAux (r.1 :: seen) rs

/-- Drop all rows whose timestamp already occurred earlier. -/
def dedupKeepFirst (s : SensorSeries) : SensorSeries := dedupAux [] s

/-- The daily-update merge of `main` (`pd.concat([old, new])`, then
`sort_index(ascending=False)`, then drop duplicated labels keeping the
first) — the same three steps as `UpdateData.post` in the backend. -/
def mergeUpdate (old new : SensorSeries) : SensorSeries :=
  dedupKeepFirst (sortDescTs (old ++ new))

/-- The incremental-update path: fetch the previous day's frame and
merge it into the persisted series. -/
def incrementalUpdate (old : SensorSeries) (day : Int) (f : Int → Option Payload) : SensorSeries :=
  mergeUpdate old (sensorsDataDay day f)

/-- The day offsets of the first-run backfill, oldest first
(`for d in range(89, 0, -1): read_date = today - d`). -/
def backfillDays (today : Int) : List Int :=
  (List.range 89).map (fun (i : Nat) => today - 89 + (i : Int))

/-- The first-run backfill: concatenate the 89 day frames
(`pd.concat(dfs_sensor_data, axis=0)`), with no sort and no dedup. -/
def backfill (today : Int) (f : Int → Option Payload) : SensorSeries :=
  (backfillDays today).foldl (fun acc d => acc ++ sensorsDataDay d f) []

/-- Result of the ETL's start-of-run load (`etl_script.py` lines
116–123): the mode is decided by the existence of the *first*
(reservoir) category's file alone; when it exists all four files are
read, and a missing sibling file makes `pd.read_csv` raise. -/
inductive LoadResult where
  | firstRun : LoadResult
  | loaded : (Fin 4 → SensorSeries) → LoadResult
  | readError : LoadResult

/-- `if os.path.exists(list_paths_old_data[0]): read all four else None`;
`files i = none` models a missing file for category `i`. -/
def loadOldData (files : Fin 4 → Option SensorSeries) : LoadResult :=
  if files 0 = none then LoadResult.firstRun
  else if h : ∀ i, (files i).isSome then
    LoadResult.loaded (fun i => (files i).get (h i))
  else LoadResult.readError

/-- `load_data` of the backend, per category: a missing file yields an
empty frame (`pd.DataFrame()`), an existing one its contents. -/
def load_data_category : Option SensorSeries → SensorSeries
  | none => []
  | some s => s

/-- Row-level restatement of `applyEntry` at its own bucket: how one
payload entry transforms the (possibly absent) row of that bucket. -/
def entryRow (tr : Int) (e : SensorEntry) : Option Row → Option Row
  | some r =>
    if e.observations.isEmpty then some r
    else some (tr, setCell r.2 e.sensor (round4 (mean e.observations)))
  | none =>
    if e.observations.isEmpty then none
    else some (tr, [(e.sensor, round4 (mean e.observations))])

/-- Row-level restatement of `aggBucket` at its own bucket: how one
bucket's whole fetch result transforms that bucket's row. -/
def aggRow (tr : Int) (p : Option Payload) (orow : Option Row) : Option Row :=
  match p with
  | none => orow
  | some p => p.foldl (fun acc e => entryRow tr e acc) orow

/-- A bucket's fetch result actually contributes data: the fetch
succeeded with a `"sensors"` list holding at least one entry with a
nonempty observation list. -/
def hasData : Option Payload → Bool
  | none => false
  | some p => p.any (fun e => !e.observations.isEmpty)

/-- The cell of a sensor in an optional row (NaN/absence as `none`). -/
def cellOf (orow : Option Row) (sid : String) : Option ℚ :=
  orow.bind (fun r => r.2.lookup sid)

/-! ### Generic list lemmas -/

theorem find?_eq_head?_filter {α : Type} (p : α → Bool) :
    ∀ l : List α, l.find? p = (l.filter p).head?
  | [] => rfl
  | a :: l => by
    by_cases h : p a
    · rw [List.find?_cons_of_pos _ h, List.filter_cons_of_pos h, List.head?_cons]
    · rw [List.find?_cons_of_neg _ h, List.filter_cons_of_neg h,
        find?_eq_head?_filter p l]

/-! ### Reading rows through filters -/

theorem rowAt_eq_head?_filter (s : SensorSeries) (t : Int) :
    rowAt s t = (s.filter (fun r => r.1 == t)).head? :=
  find?_eq_head?_filter _ s

/-- Stability of `insertAsc` seen through a key filter: the inserted row
lands before every row with the same key. -/
theorem filter_insertAsc (t : Int) (x : Row) : ∀ l : SensorSeries,
    (insertAsc x l).filter (fun r => r.1 == t)
      = if x.1 = t then x :: l.filter (fun r => r.1 == t)
        else l.filter (fun r => r.1 == t)
  | [] => by
    have h0 : insertAsc x [] = [x] := rfl
    rw [h0]
    by_cases h : x.1 = t <;> simp [List.filter_cons, h]
  | y :: ys => by
    have h0 : insertAsc x (y :: ys)
        = if x.1 ≤ y.1 then x :: y :: ys else y :: insertAsc x ys := rfl
    rw [h0]
    by_cases hxy : x.1 ≤ y.1
    · rw [if_pos hxy]
      by_cases h : x.1 = t <;> simp [List.filter_cons, h]
    · rw [if_neg hxy]
      have hlt : y.1 < x.1 := lt_of_not_le hxy
      have ih := filter_insertAsc t x ys
      by_cases hyt : y.1 = t
      · have hxt : ¬ x.1 = t := by omega
        rw [if_neg hxt] at ih ⊢
        simp [List.filter_cons, hyt, ih]
      · by_cases hxt : x.1 = t
        · rw [if_pos hxt] at ih ⊢
          simp [List.filter_cons, hyt, ih]
        · rw [if_neg hxt] at ih ⊢
          simp [List.filter_cons, hyt, ih]

/-- Stability of the ascending sort: it permutes rows with distinct keys
but leaves each key's subsequence of rows untouched. -/
theorem filter_sortAscTs (t : Int) : ∀ l : SensorSeries,
    (sortAscTs l).filter (fun r => r.1 == t) = l.filter (fun r => r.1 == t)
  | [] => rfl
  | x :: l => by
    have h : sortAscTs (x :: l) = insertAsc x (sortAscTs l) := rfl
    by_cases hxt : x.1 = t <;>
      simp [h, filter_insertAsc, hxt, List.filter_cons, filter_sortAscTs t l]

/-- What `sort_index(ascending=False)` leaves at a label: the *last* row
of the input that carries it (pandas sorts ascending, then reverses). -/
theorem rowAt_sortDescTs (l : SensorSeries) (t : Int) :
    rowAt (sortDescTs l) t = (l.filter (fun r => r.1 == t)).getLast? := by
  rw [rowAt_eq_head?_filter, sortDescTs, List.filter_reverse,
    List.head?_reverse, filter_sortAscTs]

/-! ### Dedup lemmas -/

theorem rowAt_cons_of_ne (r : Row) (rs : SensorSeries) (t : Int) (h : r.1 ≠ t) :
    rowAt (r :: rs) t = rowAt rs t := by
  simp [rowAt, List.find?_cons, h]

theorem rowAt_cons_of_eq (r : Row) (rs : SensorSeries) (t : Int) (h : r.1 = t) :
    rowAt (r :: rs) t = some r := by
  simp [rowAt, List.find?_cons, h]

theorem rowAt_dedupAux (t : Int) : ∀ (seen : List Int) (l : SensorSeries),
    t ∉ seen → rowAt (dedupAux seen l) t = rowAt l t
  | _, [], _ => rfl
  | seen, r :: rs, hns => by
    by_cases hr : r.1 ∈ seen
    · have hrt : r.1 ≠ t := fun h => hns (h ▸ hr)
      have h1 : dedupAux seen (r :: rs) = dedupAux seen rs := by
        simp [dedupAux, hr]
      rw [h1, rowAt_cons_of_ne r rs t hrt, rowAt_dedupAux t seen rs hns]
    · have h1 : dedupAux seen (r :: rs) = r :: dedupAux (r.1 :: seen) rs := by
        simp [dedupAux, hr]
      by_cases hrt : r.1 = t
      · rw [h1, rowAt_cons_of_eq _ _ _ hrt, rowAt_cons_of_eq _ _ _ hrt]
      · have hns2 : t ∉ r.1 :: seen := by
          intro h; rcases List.mem_cons.1 h with h | h
          · exact hrt h.symm
          · exact hns h
        rw [h1, rowAt_cons_of_ne _ _ _ hrt, rowAt_cons_of_ne r rs t hrt,
          rowAt_dedupAux t (r.1 :: seen) rs hns2]

/-- The rows surviving the duplicate-drop carry pairwise distinct
timestamps, none of them among the labels already seen. -/
theorem tsOf_dedupAux_nodup : ∀ (seen : List Int) (l : SensorSeries),
    (tsOf (dedupAux seen l)).Nodup ∧ ∀ t ∈ tsOf (dedupAux seen l), t ∉ seen
  | _, [] => by simp [dedupAux, tsOf]
  | seen, r :: rs => by
    by_cases hr : r.1 ∈ seen
    · simpa [dedupAux, hr] using tsOf_dedupAux_nodup seen rs
    · have ih := tsOf_dedupAux_nodup (r.1 :: seen) rs
      constructor
      · simp only [dedupAux, hr, if_false, tsOf, List.map_cons, List.nodup_cons]
        refine ⟨fun hmem => ?_, ih.1⟩
        exact (ih.2 r.1 hmem) (List.mem_cons_self _ _)
      · intro t ht
        simp only [dedupAux, hr, if_false, tsOf, List.map_cons,
          List.mem_cons] at ht
        rcases ht with ht | ht
        · exact ht ▸ hr
        · exact fun hseen => (ih.2 t ht) (List.mem_cons_of_mem _ hseen)

theorem dedupAux_sublist : ∀ (seen : List Int) (l : SensorSeries),
    (dedupAux seen l).Sublist l
  | _, [] => List.Sublist.refl _
  | seen, r :: rs => by
    by_cases hr : r.1 ∈ seen
    · simpa [dedupAux, hr] using (dedupAux_sublist seen rs).cons r
    · simpa [dedupAux, hr] using (dedupAux_sublist (r.1 :: seen) rs).cons₂ r

theorem tsOf_cons (r : Row) (rs : SensorSeries) : tsOf (r :: rs) = r.1 :: tsOf rs := rfl

theorem dedupAux_eq_self : ∀ (seen : List Int) (l : SensorSeries),
    (tsOf l).Nodup → (∀ t ∈ tsOf l, t ∉ seen) → dedupAux seen l = l
  | _, [], _, _ => rfl
  | seen, r :: rs, hnd, hdisj => by
    rw [tsOf_cons] at hnd hdisj
    have hr : r.1 ∉ seen := hdisj r.1 (List.mem_cons_self _ _)
    have hnd2 : (tsOf rs).Nodup := (List.nodup_cons.1 hnd).2
    have hhead : r.1 ∉ tsOf rs := (List.nodup_cons.1 hnd).1
    have hdisj2 : ∀ t ∈ tsOf rs, t ∉ r.1 :: seen := by
      intro t ht hmem
      rcases List.mem_cons.1 hmem with h | h
      · exact hhead (h ▸ ht)
      · exact hdisj t (List.mem_cons_of_mem _ ht) h
    simp [dedupAux, hr, dedupAux_eq_self (r.1 :: seen) rs hnd2 hdisj2]

/-! ### The master characterization of the merge -/

/-- What the three-step merge leaves at a label `t`: the *last* row of
`old ++ new` carrying `t`.  New rows are appended after old ones, the
descending sort puts rows with equal labels in reversed input order, and
the duplicate-drop keeps the first of them. -/
theorem rowAt_mergeUpdate (old new : SensorSeries) (t : Int) :
    rowAt (mergeUpdate old new) t
      = ((old ++ new).filter (fun r => r.1 == t)).getLast? := by
  rw [mergeUpdate, dedupKeepFirst,
    rowAt_dedupAux t [] _ (List.not_mem_nil t), rowAt_sortDescTs]

/-! ### Sortedness of the merge result -/

theorem mem_insertAsc (x : Row) : ∀ (l : SensorSeries) (z : Row),
    z ∈ insertAsc x l → z = x ∨ z ∈ l
  | [], z, h => by
    have h0 : insertAsc x [] = [x] := rfl
    rw [h0] at h
    exact Or.inl (List.mem_singleton.1 h)
  | y :: ys, z, h => by
    have h0 : insertAsc x (y :: ys)
        = if x.1 ≤ y.1 then x :: y :: ys else y :: insertAsc x ys := rfl
    rw [h0] at h
    by_cases hxy : x.1 ≤ y.1
    · rw [if_pos hxy] at h
      rcases List.mem_cons.1 h with h | h
      · exact Or.inl h
      · exact Or.inr h
    · rw [if_neg hxy] at h
      rcases List.mem_cons.1 h with h | h
      · exact Or.inr (h ▸ List.mem_cons_self _ _)
      · rcases mem_insertAsc x ys z h with h | h
        · exact Or.inl h
        · exact Or.inr (List.mem_cons_of_mem _ h)

theorem pairwise_le_insertAsc (x : Row) : ∀ l : SensorSeries,
    l.Pairwise (fun a b => a.1 ≤ b.1) →
    (insertAsc x l).Pairwise (fun a b => a.1 ≤ b.1)
  | [], _ => by
    have h0 : insertAsc x [] = [x] := rfl
    rw [h0]
    exact List.pairwise_singleton _ _
  | y :: ys, h => by
    have h0 : insertAsc x (y :: ys)
        = if x.1 ≤ y.1 then x :: y :: ys else y :: insertAsc x ys := rfl
    rw [h0]
    by_cases hxy : x.1 ≤ y.1
    · rw [if_pos hxy]
      refine List.pairwise_cons.2 ⟨?_, h⟩
      intro z hz
      rcases List.mem_cons.1 hz with hz | hz
      · exact hz ▸ hxy
      · exact le_trans hxy (List.rel_of_pairwise_cons h hz)
    · rw [if_neg hxy]
      have hlt : y.1 < x.1 := lt_of_not_le hxy
      refine List.pairwise_cons.2 ⟨?_, pairwise_le_insertAsc x ys h.of_cons⟩
      intro z hz
      rcases mem_insertAsc x ys z hz with hz | hz
      · exact hz ▸ le_of_lt hlt
      · exact List.rel_of_pairwise_cons h hz

theorem pairwise_le_sortAscTs : ∀ l : SensorSeries,
    (sortAscTs l).Pairwise (fun a b => a.1 ≤ b.1)
  | [] => List.Pairwise.nil
  | x :: l => pairwise_le_insertAsc x (sortAscTs l) (pairwise_le_sortAscTs l)

theorem pairwise_ge_sortDescTs (l : SensorSeries) :
    (sortDescTs l).Pairwise (fun a b => b.1 ≤ a.1) := by
  rw [sortDescTs]
  exact List.pairwise_reverse.2 (pairwise_le_sortAscTs l)

/-- The timestamps of a merge result are pairwise distinct. -/
theorem tsOf_mergeUpdate_nodup (old new : SensorSeries) :
    (tsOf (mergeUpdate old new)).Nodup :=
  (tsOf_dedupAux_nodup [] (sortDescTs (old ++ new))).1

/-- The merge result is sorted by strictly descending timestamp. -/
theorem mergeUpdate_strictDesc (old new : SensorSeries) :
    (mergeUpdate old new).Pairwise (fun a b => b.1 < a.1) := by
  have hge : (mergeUpdate old new).Pairwise (fun a b => b.1 ≤ a.1) :=
    List.Pairwise.sublist (dedupAux_sublist [] _)
      (pairwise_ge_sortDescTs (old ++ new))
  have hne : (mergeUpdate old new).Pairwise (fun a b => a.1 ≠ b.1) :=
    List.pairwise_map.1 (tsOf_mergeUpdate_nodup old new)
  exact (hge.and hne).imp (fun h => lt_of_le_of_ne h.1 (Ne.symm h.2))

/-! ### Extensionality for strictly descending series -/

theorem rowAt_none_of_not_mem (l : SensorSeries) (t : Int) (h : t ∉ tsOf l) :
    rowAt l t = none := by
  cases hf : rowAt l t with
  | none => rfl
  | some r =>
    exfalso
    have hm : r ∈ l := List.mem_of_find?_eq_some hf
    have ht : r.1 = t := by simpa using List.find?_some hf
    exact h (ht ▸ List.mem_map_of_mem Prod.fst hm)

theorem not_mem_tsOf_of_strictDesc (a : Row) (l : SensorSeries)
    (h : (a :: l).Pairwise (fun x y => y.1 < x.1)) : a.1 ∉ tsOf l := by
  intro hmem
  rcases List.mem_map.1 hmem with ⟨z, hz, hze⟩
  exact absurd (hze ▸ List.rel_of_pairwise_cons h hz) (lt_irrefl a.1)

/-- Two strictly descending series with the same row at every label are
equal. -/
theorem eq_of_strictDesc_rowAt : ∀ (as bs : SensorSeries),
    as.Pairwise (fun x y => y.1 < x.1) → bs.Pairwise (fun x y => y.1 < x.1) →
    (∀ t, rowAt as t = rowAt bs t) → as = bs
  | [], [], _, _, _ => rfl
  | [], b :: bs1, _, _, hext => by
    exfalso
    have h := hext b.1
    rw [rowAt_cons_of_eq b bs1 b.1 rfl] at h
    exact Option.noConfusion h
  | a :: as1, [], _, _, hext => by
    exfalso
    have h := hext a.1
    rw [rowAt_cons_of_eq a as1 a.1 rfl] at h
    exact Option.noConfusion h
  | a :: as1, b :: bs1, hda, hdb, hext => by
    have hab : a = b := by
      by_cases hba : b.1 = a.1
      · have h := hext a.1
        rw [rowAt_cons_of_eq a as1 a.1 rfl, rowAt_cons_of_eq b bs1 a.1 hba] at h
        exact Option.some.inj h
      · exfalso
        have h1 := hext a.1
        rw [rowAt_cons_of_eq a as1 a.1 rfl, rowAt_cons_of_ne b bs1 a.1 hba] at h1
        have ha1 : a ∈ bs1 := List.mem_of_find?_eq_some h1.symm
        have hlt1 : a.1 < b.1 :=
          List.rel_of_pairwise_cons hdb ha1
        have h2 := hext b.1
        rw [rowAt_cons_of_eq b bs1 b.1 rfl,
          rowAt_cons_of_ne a as1 b.1 (fun h => hba (h.symm ▸ rfl))] at h2
        have hb1 : b ∈ as1 := List.mem_of_find?_eq_some h2
        have hlt2 : b.1 < a.1 := List.rel_of_pairwise_cons hda hb1
        omega
    subst hab
    have htail : as1 = bs1 := by
      apply eq_of_strictDesc_rowAt as1 bs1 hda.of_cons hdb.of_cons
      intro t
      by_cases ht : t = a.1
      · rw [ht,
          rowAt_none_of_not_mem as1 a.1 (not_mem_tsOf_of_strictDesc a as1 hda),
          rowAt_none_of_not_mem bs1 a.1 (not_mem_tsOf_of_strictDesc a bs1 hdb)]
      · have h := hext t
        rw [rowAt_cons_of_ne a as1 t (fun he => ht he.symm),
          rowAt_cons_of_ne a bs1 t (fun he => ht he.symm)] at h
        exact h
    rw [htail]

/-! ### Filters on series with distinct timestamps -/

theorem headLast_filter (t : Int) (l : SensorSeries) (h : (tsOf l).Nodup) :
    (l.filter (fun r => r.1 == t)).head?
      = (l.filter (fun r => r.1 == t)).getLast? := by
  have hnd : (tsOf (l.filter (fun r => r.1 == t))).Nodup :=
    h.sublist ((List.filter_sublist l).map Prod.fst)
  cases hf : l.filter (fun r => r.1 == t) with
  | nil => rfl
  | cons x xs =>
    cases hxs : xs with
    | nil => rfl
    | cons y ys =>
      exfalso
      rw [hf, hxs] at hnd
      have hx : x ∈ l.filter (fun r => r.1 == t) := by
        rw [hf]; exact List.mem_cons_self _ _
      have hy : y ∈ l.filter (fun r => r.1 == t) := by
        rw [hf, hxs]; exact List.mem_cons_of_mem _ (List.mem_cons_self _ _)
      have hxt : x.1 = t := by simpa using List.of_mem_filter hx
      have hyt : y.1 = t := by simpa using List.of_mem_filter hy
      have : x.1 ∉ tsOf (y :: ys) := by
        rw [tsOf_cons] at hnd ⊢
        exact (List.nodup_cons.1 hnd).1
      exact this (hxt ▸ hyt ▸ (List.mem_cons_self _ _ : y.1 ∈ tsOf (y :: ys)))

theorem rowAt_eq_getLast?_filter (l : SensorSeries) (t : Int)
    (h : (tsOf l).Nodup) :
    rowAt l t = (l.filter (fun r => r.1 == t)).getLast? := by
  rw [rowAt_eq_head?_filter, headLast_filter t l h]

/-! ### Merge properties -/

/-- Merging the same batch a second time changes nothing. -/
theorem mergeUpdate_idem (old new : SensorSeries) :
    mergeUpdate (mergeUpdate old new) new = mergeUpdate old new := by
  apply eq_of_strictDesc_rowAt _ _
    (mergeUpdate_strictDesc (mergeUpdate old new) new)
    (mergeUpdate_strictDesc old new)
  intro t
  rw [rowAt_mergeUpdate, rowAt_mergeUpdate, List.filter_append, List.filter_append,
    List.getLast?_append, List.getLast?_append]
  cases hnf : (new.filter (fun r => r.1 == t)).getLast? with
  | some z => simp [hnf]
  | none =>
    simp only [hnf, Option.none_or]
    rw [← rowAt_eq_getLast?_filter _ t (tsOf_mergeUpdate_nodup old new),
      rowAt_mergeUpdate, List.filter_append, List.getLast?_append, hnf,
      Option.none_or]

/-- Merging an empty batch into a strictly descending series (the shape
every previous merge output has) is the identity. -/
theorem mergeUpdate_nil_of_strictDesc (old : SensorSeries)
    (h : old.Pairwise (fun a b => b.1 < a.1)) : mergeUpdate old [] = old := by
  apply eq_of_strictDesc_rowAt _ _ (mergeUpdate_strictDesc old []) h
  intro t
  have hnd : (tsOf old).Nodup :=
    List.pairwise_map.2 (h.imp (fun hlt => (ne_of_lt hlt).symm))
  rw [rowAt_mergeUpdate, List.append_nil, rowAt_eq_getLast?_filter old t hnd]

/-! ### Cell and row lemmas for the aggregation step -/

theorem any_key_iff (df : SensorSeries) (tr : Int) :
    df.any (fun r => r.1 == tr) = true ↔ tr ∈ tsOf df := by
  rw [List.any_eq_true]
  constructor
  · rintro ⟨r, hr, hp⟩
    have he : r.1 = tr := by simpa using hp
    exact he ▸ List.mem_map_of_mem Prod.fst hr
  · intro hmem
    rcases List.mem_map.1 hmem with ⟨r, hr, hre⟩
    exact ⟨r, hr, by simp [hre]⟩

theorem rowAt_some_of_mem (df : SensorSeries) (t : Int) (h : t ∈ tsOf df) :
    ∃ r, rowAt df t = some r ∧ r.1 = t := by
  cases hf : rowAt df t with
  | some r => exact ⟨r, rfl, by simpa using List.find?_some hf⟩
  | none =>
    exfalso
    rcases List.mem_map.1 h with ⟨r, hr, hre⟩
    exact (List.find?_eq_none.1 hf r hr) (by simp [hre])

theorem rowAt_none_iff (df : SensorSeries) (t : Int) :
    rowAt df t = none ↔ t ∉ tsOf df := by
  constructor
  · intro hf hmem
    rcases rowAt_some_of_mem df t hmem with ⟨r, hr, _⟩
    rw [hf] at hr
    exact Option.noConfusion hr
  · exact rowAt_none_of_not_mem df t

theorem rowAt_setLoc_self (df : SensorSeries) (tr : Int) (sid : String) (v : ℚ) :
    rowAt (setLoc df tr sid v) tr
      = some (tr, match rowAt df tr with
          | some r => setCell r.2 sid v
          | none => [(sid, v)]) := by
  by_cases hany : df.any (fun r => r.1 == tr) = true
  · rcases rowAt_some_of_mem df tr ((any_key_iff df tr).1 hany) with ⟨r, hr, hrt⟩
    rw [hr, setLoc, if_pos hany, rowAt, List.find?_map]
    have hpred : ((fun r : Row => r.1 == tr)
          ∘ (fun r : Row => if r.1 == tr then (tr, setCell r.2 sid v) else r))
        = (fun r : Row => r.1 == tr) := by
      funext z
      by_cases h : z.1 = tr <;> simp [h]
    rw [hpred]
    have hfind : List.find? (fun r : Row => r.1 == tr) df = some r := hr
    rw [hfind]
    simp [Option.map_some, hrt]
  · have hnone : rowAt df tr = none := by
      rw [rowAt, List.find?_eq_none]
      intro x hx hp
      exact hany (List.any_eq_true.2 ⟨x, hx, hp⟩)
    rw [hnone, setLoc, if_neg hany, rowAt, List.find?_append]
    have hfind : List.find? (fun r : Row => r.1 == tr) df = none := hnone
    rw [hfind]
    simp [List.find?]

theorem rowAt_setLoc_other (df : SensorSeries) (tr t : Int) (sid : String)
    (v : ℚ) (h : t ≠ tr) : rowAt (setLoc df tr sid v) t = rowAt df t := by
  by_cases hany : df.any (fun r => r.1 == tr) = true
  · rw [setLoc, if_pos hany, rowAt, List.find?_map]
    have hpred : ((fun r : Row => r.1 == t)
          ∘ (fun r : Row => if r.1 == tr then (tr, setCell r.2 sid v) else r))
        = (fun r : Row => r.1 == t) := by
      funext z
      by_cases hz : z.1 = tr
      · simp [hz, (fun he => h he.symm : ¬ tr = t)]
      · simp [hz]
    rw [hpred]
    have hrow : rowAt df t = List.find? (fun r : Row => r.1 == t) df := rfl
    cases hf : List.find? (fun r : Row => r.1 == t) df with
    | none => rw [hrow, hf]; rfl
    | some r =>
      have hrt : r.1 = t := by simpa using List.find?_some hf
      have hne : ¬ r.1 = tr := by rw [hrt]; exact h
      rw [hrow, hf]
      simp [Option.map_some, hne]
  · rw [setLoc, if_neg hany]
    have hrow : rowAt (df ++ [(tr, [(sid, v)])]) t
        = (List.find? (fun r : Row => r.1 == t) df).or
            (List.find? (fun r : Row => r.1 == t) [(tr, [(sid, v)])]) :=
      List.find?_append
    have hx : List.find? (fun r : Row => r.1 == t) [(tr, [(sid, v)])] = none := by
      rw [List.find?_cons_of_neg]
      · rfl
      · simp
        exact fun he => h he.symm
    rw [hrow, hx, Option.or_none]
    rfl

theorem rowAt_applyEntry_self (tr : Int) (e : SensorEntry) (df : SensorSeries) :
    rowAt (applyEntry tr e df) tr = entryRow tr e (rowAt df tr) := by
  by_cases he : e.observations.isEmpty
  · rw [applyEntry, if_pos he]
    cases rowAt df tr <;> simp [entryRow, he]
  · rw [applyEntry, if_neg he,
      rowAt_setLoc_self df tr e.sensor (round4 (mean e.observations))]
    cases hrow : rowAt df tr <;> simp [entryRow, he]

theorem rowAt_applyEntry_other (tr t : Int) (e : SensorEntry)
    (df : SensorSeries) (h : t ≠ tr) :
    rowAt (applyEntry tr e df) t = rowAt df t := by
  by_cases he : e.observations.isEmpty
  · rw [applyEntry, if_pos he]
  · rw [applyEntry, if_neg he, rowAt_setLoc_other df tr t _ _ h]

theorem rowAt_entryFold_self (tr : Int) : ∀ (p : Payload) (df : SensorSeries),
    rowAt (p.foldl (fun acc e => applyEntry tr e acc) df) tr
      = p.foldl (fun acc e => entryRow tr e acc) (rowAt df tr)
  | [], _ => rfl
  | e :: p, df => by
    rw [List.foldl_cons, List.foldl_cons, rowAt_entryFold_self tr p _,
      rowAt_applyEntry_self tr e df]

theorem rowAt_entryFold_other (tr t : Int) (h : t ≠ tr) :
    ∀ (p : Payload) (df : SensorSeries),
    rowAt (p.foldl (fun acc e => applyEntry tr e acc) df) t = rowAt df t
  | [], _ => rfl
  | e :: p, df => by
    rw [List.foldl_cons, rowAt_entryFold_other tr t h p _,
      rowAt_applyEntry_other tr t e df h]

theorem rowAt_aggBucket_self (df : SensorSeries) (tr : Int)
    (p : Option Payload) :
    rowAt (aggBucket df tr p) tr = aggRow tr p (rowAt df tr) := by
  cases p with
  | none => rfl
  | some p => exact rowAt_entryFold_self tr p df

theorem rowAt_aggBucket_other (df : SensorSeries) (tr t : Int)
    (p : Option Payload) (h : t ≠ tr) :
    rowAt (aggBucket df tr p) t = rowAt df t := by
  cases p with
  | none => rfl
  | some p => exact rowAt_entryFold_other tr t h p df

/-- The row a bucket fold leaves at label `t` only depends on the fetch
results of the buckets equal to `t`. -/
theorem rowAt_aggOver (f : Int → Option Payload) (t : Int) :
    ∀ (bs : List Int) (df : SensorSeries),
    rowAt (aggOver f bs df) t
      = bs.foldl (fun acc b => if b = t then aggRow t (f b) acc else acc)
          (rowAt df t)
  | [], _ => rfl
  | b :: bs, df => by
    rw [aggOver, List.foldl_cons, List.foldl_cons]
    have hstep : rowAt (aggBucket df b (f b)) t
        = if b = t then aggRow t (f b) (rowAt df t) else rowAt df t := by
      by_cases hb : b = t
      · rw [if_pos hb, hb, rowAt_aggBucket_self]
      · rw [if_neg hb, rowAt_aggBucket_other df b t (f b) (fun he => hb he.symm)]
    rw [← hstep]
    exact rowAt_aggOver f t bs (aggBucket df b (f b))

/-! ### Timestamps produced by the aggregation step -/

theorem tsOf_append (a b : SensorSeries) : tsOf (a ++ b) = tsOf a ++ tsOf b :=
  List.map_append _ a b

theorem tsOf_setLoc_of_mem (df : SensorSeries) (tr : Int) (sid : String)
    (v : ℚ) (h : tr ∈ tsOf df) : tsOf (setLoc df tr sid v) = tsOf df := by
  rw [setLoc, if_pos ((any_key_iff df tr).2 h), tsOf, List.map_map]
  have hfun : (Prod.fst ∘ fun r : Row =>
      if r.1 == tr then (tr, setCell r.2 sid v) else r) = Prod.fst := by
    funext r
    by_cases hz : r.1 = tr <;> simp [hz]
  rw [hfun, tsOf]

theorem tsOf_setLoc_of_not_mem (df : SensorSeries) (tr : Int) (sid : String)
    (v : ℚ) (h : tr ∉ tsOf df) : tsOf (setLoc df tr sid v) = tsOf df ++ [tr] := by
  rw [setLoc, if_neg (fun hc => h ((any_key_iff df tr).1 hc)), tsOf,
    List.map_append, tsOf]
  rfl

theorem tsOf_applyEntry_of_mem (tr : Int) (e : SensorEntry) (df : SensorSeries)
    (h : tr ∈ tsOf df) : tsOf (applyEntry tr e df) = tsOf df := by
  by_cases he : e.observations.isEmpty
  · rw [applyEntry, if_pos he]
  · rw [applyEntry, if_neg he, tsOf_setLoc_of_mem df tr _ _ h]

theorem tsOf_applyEntry (tr : Int) (e : SensorEntry) (df : SensorSeries) :
    tsOf (applyEntry tr e df) = tsOf df
      ∨ tsOf (applyEntry tr e df) = tsOf df ++ [tr] := by
  by_cases he : e.observations.isEmpty
  · exact Or.inl (by rw [applyEntry, if_pos he])
  · by_cases h : tr ∈ tsOf df
    · exact Or.inl (tsOf_applyEntry_of_mem tr e df h)
    · exact Or.inr (by rw [applyEntry, if_neg he, tsOf_setLoc_of_not_mem df tr _ _ h])

theorem tsOf_entryFold_of_mem (tr : Int) : ∀ (p : Payload) (df : SensorSeries),
    tr ∈ tsOf df →
    tsOf (p.foldl (fun acc e => applyEntry tr e acc) df) = tsOf df
  | [], _, _ => rfl
  | e :: p, df, h => by
    rw [List.foldl_cons,
      tsOf_entryFold_of_mem tr p _ ((tsOf_applyEntry_of_mem tr e df h).symm ▸ h),
      tsOf_applyEntry_of_mem tr e df h]

theorem tsOf_entryFold (tr : Int) : ∀ (p : Payload) (df : SensorSeries),
    tsOf (p.foldl (fun acc e => applyEntry tr e acc) df) = tsOf df
      ∨ tsOf (p.foldl (fun acc e => applyEntry tr e acc) df) = tsOf df ++ [tr]
  | [], _ => Or.inl rfl
  | e :: p, df => by
    rw [List.foldl_cons]
    rcases tsOf_applyEntry tr e df with h | h
    · rcases tsOf_entryFold tr p (applyEntry tr e df) with h2 | h2
      · exact Or.inl (by rw [h2, h])
      · exact Or.inr (by rw [h2, h])
    · have hmem : tr ∈ tsOf (applyEntry tr e df) := by
        rw [h]; exact List.mem_append_right _ (List.mem_singleton.2 rfl)
      exact Or.inr (by rw [tsOf_entryFold_of_mem tr p _ hmem, h])

theorem tsOf_aggBucket (df : SensorSeries) (tr : Int) (p : Option Payload) :
    tsOf (aggBucket df tr p) = tsOf df
      ∨ tsOf (aggBucket df tr p) = tsOf df ++ [tr] := by
  cases p with
  | none => exact Or.inl rfl
  | some p => exact tsOf_entryFold tr p df

theorem tsOf_aggOver_exists (f : Int → Option Payload) :
    ∀ (bs : List Int) (df : SensorSeries),
    ∃ s, tsOf (aggOver f bs df) = tsOf df ++ s ∧ s.Sublist bs
  | [], df => ⟨[], by rw [List.append_nil]; rfl, List.nil_sublist _⟩
  | b :: bs, df => by
    have hstep : aggOver f (b :: bs) df = aggOver f bs (aggBucket df b (f b)) := rfl
    rcases tsOf_aggOver_exists f bs (aggBucket df b (f b)) with ⟨s, hs, hsub⟩
    rcases tsOf_aggBucket df b (f b) with h | h
    · exact ⟨s, by rw [hstep, hs, h], hsub.cons b⟩
    · refine ⟨b :: s, ?_, hsub.cons₂ b⟩
      rw [hstep, hs, h, List.append_assoc]
      rfl

/-- The day frame's timestamps form a subsequence of the day's four
canonical buckets. -/
theorem tsOf_sensorsDataDay (day : Int) (f : Int → Option Payload) :
    (tsOf (sensorsDataDay day f)).Sublist (bucketsOf day) := by
  rcases tsOf_aggOver_exists f (bucketsOf day) [] with ⟨s, hs, hsub⟩
  have he : tsOf (sensorsDataDay day f) = s := by
    rw [sensorsDataDay, hs]
    rfl
  rw [he]
  exact hsub

theorem bucketsOf_nodup (day : Int) : (bucketsOf day).Nodup := by
  simp [bucketsOf, List.nodup_cons, List.mem_cons]

theorem tsOf_sensorsDataDay_nodup (day : Int) (f : Int → Option Payload) :
    (tsOf (sensorsDataDay day f)).Nodup :=
  List.Nodup.sublist (tsOf_sensorsDataDay day f) (bucketsOf_nodup day)

theorem bucketsOf_disjoint (d d' : Int) (h : d ≠ d') (t : Int)
    (h1 : t ∈ bucketsOf d) (h2 : t ∈ bucketsOf d') : False := by
  simp [bucketsOf, List.mem_cons] at h1 h2
  omega

theorem backfill_fold_nodup (f : Int → Option Payload) :
    ∀ (ds : List Int) (acc : SensorSeries), (tsOf acc).Nodup →
    (∀ d ∈ ds, ∀ t ∈ tsOf acc, t ∉ bucketsOf d) → ds.Pairwise (· ≠ ·) →
    (tsOf (ds.foldl (fun a d => a ++ sensorsDataDay d f) acc)).Nodup
  | [], _, hnd, _, _ => hnd
  | d :: ds, acc, hnd, hdisj, hpw => by
    rw [List.foldl_cons]
    apply backfill_fold_nodup f ds (acc ++ sensorsDataDay d f)
    · rw [tsOf_append]
      refine hnd.append (tsOf_sensorsDataDay_nodup d f) ?_
      intro t ht ht2
      exact hdisj d (List.mem_cons_self _ _) t ht
        ((tsOf_sensorsDataDay d f).subset ht2)
    · intro d' hd' t ht
      rw [tsOf_append] at ht
      rcases List.mem_append.1 ht with hta | htf
      · exact hdisj d' (List.mem_cons_of_mem _ hd') t hta
      · exact fun hb => bucketsOf_disjoint d d'
          (List.rel_of_pairwise_cons hpw hd') t
          ((tsOf_sensorsDataDay d f).subset htf) hb
    · exact hpw.of_cons

/-- The timestamps of the whole 89-day backfill concatenation are
pairwise distinct even though the concatenation never dedups: distinct
days own disjoint bucket sets. -/
theorem tsOf_backfill_nodup (today : Int) (f : Int → Option Payload) :
    (tsOf (backfill today f)).Nodup := by
  apply backfill_fold_nodup f (backfillDays today) [] List.nodup_nil
    (fun _ _ t ht => absurd ht (List.not_mem_nil t))
  rw [backfillDays]
  apply List.pairwise_map.2
  refine List.Pairwise.imp ?_ (List.pairwise_lt_range 89)
  intro a b h
  omega

/-! ### Cell lookup lemmas -/

theorem lookup_cons_eq (s k : String) (v : ℚ) (rest : Record) (h : s = k) :
    List.lookup s ((k, v) :: rest) = some v := by
  have hb : (s == k) = true := by simp [h]
  rw [List.lookup_cons, hb]

theorem lookup_cons_ne (s k : String) (v : ℚ) (rest : Record) (h : s ≠ k) :
    List.lookup s ((k, v) :: rest) = List.lookup s rest := by
  have hb : (s == k) = false := by simp [h]
  rw [List.lookup_cons, hb]

theorem lookup_maprep_self (sid : String) (v : ℚ) : ∀ rec : Record,
    rec.any (fun p => p.1 == sid) = true →
    ((rec.map (fun p => if p.1 == sid then (sid, v) else p)).lookup sid = some v)
  | [], h => by simp at h
  | (k, w) :: rest, h => by
    rw [List.map_cons]
    by_cases hk : k = sid
    · have hmap : (if ((k, w) : String × ℚ).1 == sid then (sid, v) else (k, w))
          = (sid, v) := by simp [hk]
      rw [hmap, lookup_cons_eq sid sid v _ rfl]
    · have hmap : (if ((k, w) : String × ℚ).1 == sid then (sid, v) else (k, w))
          = (k, w) := by simp [hk]
      have h2 : rest.any (fun p => p.1 == sid) = true := by
        simpa [List.any_cons, hk] using h
      rw [hmap, lookup_cons_ne sid k w _ (fun he => hk he.symm),
        lookup_maprep_self sid v rest h2]

theorem lookup_maprep_other (sid s : String) (v : ℚ) (hs : s ≠ sid) :
    ∀ rec : Record,
    ((rec.map (fun p => if p.1 == sid then (sid, v) else p)).lookup s
      = rec.lookup s)
  | [] => rfl
  | (k, w) :: rest => by
    rw [List.map_cons]
    by_cases hk : k = sid
    · have hmap : (if ((k, w) : String × ℚ).1 == sid then (sid, v) else (k, w))
          = (sid, v) := by simp [hk]
      rw [hmap, lookup_cons_ne s sid v _ hs,
        lookup_cons_ne s k w _ (fun he => hs (he.trans hk)),
        lookup_maprep_other sid s v hs rest]
    · have hmap : (if ((k, w) : String × ℚ).1 == sid then (sid, v) else (k, w))
          = (k, w) := by simp [hk]
      by_cases hsk : s = k
      · rw [hmap, lookup_cons_eq s k w _ hsk, lookup_cons_eq s k w _ hsk]
      · rw [hmap, lookup_cons_ne s k w _ hsk, lookup_cons_ne s k w _ hsk,
          lookup_maprep_other sid s v hs rest]

theorem lookup_append_self (sid : String) (v : ℚ) : ∀ rec : Record,
    rec.any (fun p => p.1 == sid) = false →
    ((rec ++ [(sid, v)]).lookup sid = some v)
  | [], _ => by rw [List.nil_append, lookup_cons_eq sid sid v _ rfl]
  | (k, w) :: rest, h => by
    rw [List.any_cons, Bool.or_eq_false_iff] at h
    have hk : ¬ k = sid := by
      intro he
      rw [he] at h
      simp at h
    rw [List.cons_append, lookup_cons_ne sid k w _ (fun he => hk he.symm),
      lookup_append_self sid v rest h.2]

theorem lookup_append_other (sid s : String) (v : ℚ) (hs : s ≠ sid) :
    ∀ rec : Record, ((rec ++ [(sid, v)]).lookup s = rec.lookup s)
  | [] => by
    rw [List.nil_append, lookup_cons_ne s sid v _ hs]
  | (k, w) :: rest => by
    by_cases hsk : s = k
    · rw [List.cons_append, lookup_cons_eq s k w _ hsk, lookup_cons_eq s k w _ hsk]
    · rw [List.cons_append, lookup_cons_ne s k w _ hsk, lookup_cons_ne s k w _ hsk,
        lookup_append_other sid s v hs rest]

theorem lookup_setCell_self (rec : Record) (sid : String) (v : ℚ) :
    (setCell rec sid v).lookup sid = some v := by
  by_cases hany : rec.any (fun p => p.1 == sid) = true
  · rw [setCell, if_pos hany]
    exact lookup_maprep_self sid v rec hany
  · rw [setCell, if_neg hany]
    exact lookup_append_self sid v rec (Bool.eq_false_iff.2 hany)

theorem lookup_setCell_other (rec : Record) (sid s : String) (v : ℚ)
    (hs : s ≠ sid) : (setCell rec sid v).lookup s = rec.lookup s := by
  by_cases hany : rec.any (fun p => p.1 == sid) = true
  · rw [setCell, if_pos hany]
    exact lookup_maprep_other sid s v hs rec
  · rw [setCell, if_neg hany]
    exact lookup_append_other sid s v hs rec

/-! ### Cells produced by one bucket's aggregation -/

theorem entryRow_of_isEmpty (tr : Int) (e : SensorEntry) (orow : Option Row)
    (he : e.observations.isEmpty = true) : entryRow tr e orow = orow := by
  cases orow <;> simp [entryRow, he]

theorem cellOf_entryRow_self (tr : Int) (e : SensorEntry) (orow : Option Row)
    (he : ¬ e.observations.isEmpty = true) :
    cellOf (entryRow tr e orow) e.sensor = some (round4 (mean e.observations)) := by
  cases orow with
  | none => simp [entryRow, he, cellOf, lookup_cons_eq]
  | some r => simp [entryRow, he, cellOf, lookup_setCell_self]

theorem cellOf_entryRow_other (tr : Int) (e : SensorEntry) (orow : Option Row)
    (s : String) (hs : s ≠ e.sensor) :
    cellOf (entryRow tr e orow) s = cellOf orow s := by
  by_cases he : e.observations.isEmpty
  · rw [entryRow_of_isEmpty tr e orow he]
  · cases orow with
    | none =>
      simp [entryRow, he, cellOf]
      exact hs
    | some r =>
      simp [entryRow, he, cellOf]
      rw [lookup_setCell_other r.2 e.sensor s _ hs]

theorem cellOf_entryFold_not_mem (tr : Int) (s : String) :
    ∀ (p : Payload) (orow : Option Row),
    s ∉ p.map (fun e => e.sensor) →
    cellOf (p.foldl (fun acc e => entryRow tr e acc) orow) s = cellOf orow s
  | [], _, _ => rfl
  | e :: p, orow, h => by
    rw [List.map_cons] at h
    have hs : s ≠ e.sensor := fun he => h (he ▸ List.mem_cons_self _ _)
    have h2 : s ∉ p.map (fun e => e.sensor) :=
      fun hm => h (List.mem_cons_of_mem _ hm)
    rw [List.foldl_cons, cellOf_entryFold_not_mem tr s p _ h2,
      cellOf_entryRow_other tr e orow s hs]

theorem cellOf_entryFold_mem (tr : Int) : ∀ (p : Payload) (orow : Option Row)
    (e : SensorEntry), (p.map (fun x => x.sensor)).Nodup → e ∈ p →
    cellOf (p.foldl (fun acc x => entryRow tr x acc) orow) e.sensor
      = if e.observations.isEmpty then cellOf orow e.sensor
        else some (round4 (mean e.observations))
  | e' :: p, orow, e, hnd, hmem => by
    rw [List.map_cons] at hnd
    have hhead : e'.sensor ∉ p.map (fun x => x.sensor) := (List.nodup_cons.1 hnd).1
    rcases List.mem_cons.1 hmem with he | he
    · subst he
      rw [List.foldl_cons, cellOf_entryFold_not_mem tr e.sensor p _ hhead]
      by_cases hobs : e.observations.isEmpty
      · rw [if_pos hobs, entryRow_of_isEmpty tr e orow hobs]
      · rw [if_neg hobs, cellOf_entryRow_self tr e orow hobs]
    · have hs : e.sensor ≠ e'.sensor := by
        intro hse
        exact hhead (hse ▸ List.mem_map_of_mem (fun x => x.sensor) he)
      rw [List.foldl_cons,
        cellOf_entryFold_mem tr p _ e (List.nodup_cons.1 hnd).2 he,
        cellOf_entryRow_other tr e' orow e.sensor hs]

/-! ### Bucket-presence lemmas -/

theorem entryRow_isSome (tr : Int) (e : SensorEntry) (orow : Option Row)
    (h : orow.isSome = true) : (entryRow tr e orow).isSome = true := by
  cases orow with
  | none => simp at h
  | some r => by_cases he : e.observations.isEmpty <;> simp [entryRow, he]

theorem entryRow_isSome_of_nonempty (tr : Int) (e : SensorEntry)
    (orow : Option Row) (he : ¬ e.observations.isEmpty = true) :
    (entryRow tr e orow).isSome = true := by
  cases orow <;> simp [entryRow, he]

theorem entryFold_isSome (tr : Int) : ∀ (p : Payload) (orow : Option Row),
    orow.isSome = true →
    ((p.foldl (fun acc e => entryRow tr e acc) orow).isSome = true)
  | [], _, h => h
  | e :: p, orow, h => by
    rw [List.foldl_cons]
    exact entryFold_isSome tr p _ (entryRow_isSome tr e orow h)

theorem entryFold_isSome_of_any (tr : Int) : ∀ (p : Payload) (orow : Option Row),
    p.any (fun e => !e.observations.isEmpty) = true →
    ((p.foldl (fun acc e => entryRow tr e acc) orow).isSome = true)
  | [], _, h => by simp at h
  | e :: p, orow, h => by
    rw [List.foldl_cons]
    by_cases he : e.observations.isEmpty
    · rw [entryRow_of_isEmpty tr e orow he]
      have h2 : p.any (fun e => !e.observations.isEmpty) = true := by
        simpa [List.any_cons, he] using h
      exact entryFold_isSome_of_any tr p orow h2
    · exact entryFold_isSome tr p _ (entryRow_isSome_of_nonempty tr e orow he)

theorem aggRow_isSome_of_hasData (tr : Int) (p : Option Payload)
    (orow : Option Row) (h : hasData p = true) :
    (aggRow tr p orow).isSome = true := by
  cases p with
  | none => simp [hasData] at h
  | some pl => exact entryFold_isSome_of_any tr pl orow h

theorem aggRow_isSome_mono (tr : Int) (p : Option Payload) (orow : Option Row)
    (h : orow.isSome = true) : (aggRow tr p orow).isSome = true := by
  cases p with
  | none => exact h
  | some pl => exact entryFold_isSome tr pl orow h

/-! ### Fold-step lemmas over bucket lists -/

theorem rowstep_fold_none (f : Int → Option Payload) (t : Int)
    (hft : f t = none) : ∀ (bs : List Int) (acc : Option Row),
    bs.foldl (fun acc b => if b = t then aggRow t (f b) acc else acc) acc = acc
  | [], _ => rfl
  | b :: bs, acc => by
    rw [List.foldl_cons]
    by_cases hb : b = t
    · rw [if_pos hb, hb, hft]
      exact rowstep_fold_none f t hft bs acc
    · rw [if_neg hb]
      exact rowstep_fold_none f t hft bs acc

theorem rowstep_fold_congr (f g : Int → Option Payload) (b t : Int)
    (hne : t ≠ b) (hagree : ∀ x, x ≠ b → f x = g x) :
    ∀ (bs : List Int) (acc : Option Row),
    bs.foldl (fun acc x => if x = t then aggRow t (f x) acc else acc) acc
      = bs.foldl (fun acc x => if x = t then aggRow t (g x) acc else acc) acc
  | [], _ => rfl
  | x :: bs, acc => by
    rw [List.foldl_cons, List.foldl_cons]
    by_cases hx : x = t
    · rw [if_pos hx, if_pos hx, hagree x (hx.symm ▸ hne)]
      exact rowstep_fold_congr f g b t hne hagree bs _
    · rw [if_neg hx, if_neg hx]
      exact rowstep_fold_congr f g b t hne hagree bs acc

theorem rowstep_fold_mono (f : Int → Option Payload) (t : Int) :
    ∀ (bs : List Int) (acc : Option Row), acc.isSome = true →
    ((bs.foldl (fun acc b => if b = t then aggRow t (f b) acc else acc) acc).isSome
      = true)
  | [], _, h => h
  | b :: bs, acc, h => by
    rw [List.foldl_cons]
    by_cases hb : b = t
    · rw [if_pos hb]
      exact rowstep_fold_mono f t bs _ (aggRow_isSome_mono t (f b) acc h)
    · rw [if_neg hb]
      exact rowstep_fold_mono f t bs acc h

theorem rowstep_fold_isSome (f : Int → Option Payload) (t : Int)
    (hd : hasData (f t) = true) : ∀ (bs : List Int) (acc : Option Row),
    t ∈ bs →
    ((bs.foldl (fun acc b => if b = t then aggRow t (f b) acc else acc) acc).isSome
      = true)
  | [], _, hmem => absurd hmem (List.not_mem_nil t)
  | b :: bs, acc, hmem => by
    rw [List.foldl_cons]
    by_cases hb : b = t
    · rw [if_pos hb]
      refine rowstep_fold_mono f t bs _ ?_
      rw [hb]
      exact aggRow_isSome_of_hasData t (f t) acc hd
    · rw [if_neg hb]
      rcases List.mem_cons.1 hmem with hm | hm
      · exact absurd hm.symm hb
      · exact rowstep_fold_isSome f t hd bs acc hm

theorem filter_keyEq_nil (l : SensorSeries) (t : Int) (h : t ∉ tsOf l) :
    l.filter (fun r => r.1 == t) = [] := by
  rw [List.filter_eq_nil_iff]
  intro r hr
  simp only [beq_iff_eq]
  exact fun he => h (he ▸ List.mem_map_of_mem Prod.fst hr)

/-! ## The claims -/

/-- C1: when a timestamp occurs both in the existing series and in the
freshly aggregated day frame, the merged series holds the incoming
frame's row (hence its value) at that timestamp: the most recently
fetched value supersedes the persisted one. -/
theorem C1_latest_fetch_wins (old : SensorSeries) (day : Int)
    (f : Int → Option Payload) (t : Int)
    (hmem : t ∈ tsOf (sensorsDataDay day f)) :
    rowAt (incrementalUpdate old day f) t = rowAt (sensorsDataDay day f) t := by
  rw [incrementalUpdate, rowAt_mergeUpdate, List.filter_append,
    List.getLast?_append,
    ← rowAt_eq_getLast?_filter _ t (tsOf_sensorsDataDay_nodup day f)]
  rcases rowAt_some_of_mem _ t hmem with ⟨r, hr, _⟩
  rw [hr]
  rfl

theorem C1_witness :
    0 ∈ tsOf (sensorsDataDay 0
        (fun b => if b = 0 then some [⟨"A", [(2 : ℚ)]⟩] else none))
      ∧ rowAt (incrementalUpdate [((0 : Int), [("A", (1 : ℚ))])] 0
          (fun b => if b = 0 then some [⟨"A", [(2 : ℚ)]⟩] else none)) 0
        = rowAt (sensorsDataDay 0
            (fun b => if b = 0 then some [⟨"A", [(2 : ℚ)]⟩] else none)) 0 :=
  ⟨by decide,
    C1_latest_fetch_wins [((0 : Int), [("A", (1 : ℚ))])] 0
      (fun b => if b = 0 then some [⟨"A", [(2 : ℚ)]⟩] else none) 0 (by decide)⟩

/-- C2: every merge output has pairwise distinct timestamps, and so does
the 89-day backfill concatenation (whose per-day frames live in disjoint
bucket sets). -/
theorem C2_no_duplicate_timestamps :
    (∀ old new : SensorSeries, (tsOf (mergeUpdate old new)).Nodup)
      ∧ ∀ (today : Int) (f : Int → Option Payload),
        (tsOf (backfill today f)).Nodup :=
  ⟨tsOf_mergeUpdate_nodup, tsOf_backfill_nodup⟩

/-- C3: a sensor present in a bucket's payload with a nonempty
observation list gets the 4-digit-rounded arithmetic mean of its values;
a sensor absent from the payload, or present with zero observations,
gets no cell at all; and `[10, 12]` aggregates to `11`. -/
theorem C3_bucket_aggregation :
    (∀ (tr : Int) (p : Payload) (e : SensorEntry),
        (p.map (fun x => x.sensor)).Nodup → e ∈ p →
        ¬ e.observations.isEmpty = true →
        valueAt (aggBucket [] tr (some p)) tr e.sensor
          = some (round4 (mean e.observations)))
    ∧ (∀ (tr : Int) (p : Payload) (s : String),
        s ∉ p.map (fun x => x.sensor) →
        valueAt (aggBucket [] tr (some p)) tr s = none)
    ∧ (∀ (tr : Int) (p : Payload) (e : SensorEntry),
        (p.map (fun x => x.sensor)).Nodup → e ∈ p →
        e.observations.isEmpty = true →
        valueAt (aggBucket [] tr (some p)) tr e.sensor = none)
    ∧ round4 (mean [10, 12]) = 11 := by
  refine ⟨?_, ?_, ?_, ?_⟩
  · intro tr p e hnd hmem hobs
    have h : valueAt (aggBucket [] tr (some p)) tr e.sensor
        = cellOf (rowAt (aggBucket [] tr (some p)) tr) e.sensor := rfl
    have ha : aggRow tr (some p) (rowAt ([] : SensorSeries) tr)
        = p.foldl (fun acc x => entryRow tr x acc) none := rfl
    rw [h, rowAt_aggBucket_self, ha, cellOf_entryFold_mem tr p _ e hnd hmem,
      if_neg hobs]
  · intro tr p s hs
    have h : valueAt (aggBucket [] tr (some p)) tr s
        = cellOf (rowAt (aggBucket [] tr (some p)) tr) s := rfl
    have ha : aggRow tr (some p) (rowAt ([] : SensorSeries) tr)
        = p.foldl (fun acc x => entryRow tr x acc) none := rfl
    rw [h, rowAt_aggBucket_self, ha, cellOf_entryFold_not_mem tr s p _ hs]
    rfl
  · intro tr p e hnd hmem hobs
    have h : valueAt (aggBucket [] tr (some p)) tr e.sensor
        = cellOf (rowAt (aggBucket [] tr (some p)) tr) e.sensor := rfl
    have ha : aggRow tr (some p) (rowAt ([] : SensorSeries) tr)
        = p.foldl (fun acc x => entryRow tr x acc) none := rfl
    rw [h, rowAt_aggBucket_self, ha, cellOf_entryFold_mem tr p _ e hnd hmem,
      if_pos hobs]
    rfl
  · norm_num [round4, roundHalfEven, mean, Rat.floor]

theorem C3_witness :
    valueAt (aggBucket [] 0
        (some [(⟨"E01", [10, 12]⟩ : SensorEntry), ⟨"E02", []⟩])) 0 "E01"
      = some (round4 (mean [10, 12]))
    ∧ valueAt (aggBucket [] 0
        (some [(⟨"E01", [10, 12]⟩ : SensorEntry), ⟨"E02", []⟩])) 0 "E03" = none
    ∧ valueAt (aggBucket [] 0
        (some [(⟨"E01", [10, 12]⟩ : SensorEntry), ⟨"E02", []⟩])) 0 "E02" = none :=
  ⟨C3_bucket_aggregation.1 0 [⟨"E01", [10, 12]⟩, ⟨"E02", []⟩]
      ⟨"E01", [10, 12]⟩ (by decide) (by decide) (by decide),
    C3_bucket_aggregation.2.1 0 [⟨"E01", [10, 12]⟩, ⟨"E02", []⟩] "E03" (by decide),
    C3_bucket_aggregation.2.2.1 0 [⟨"E01", [10, 12]⟩, ⟨"E02", []⟩]
      ⟨"E02", []⟩ (by decide) (by decide) (by decide)⟩

/-- C4: a failed `(category, bucket)` fetch yields no row for that
bucket, and leaves every other bucket's aggregated row — and the rows
of the series merged from the frame — exactly as they would have been
had the bucket succeeded. -/
theorem C4_failure_degrades_gracefully (day b : Int)
    (f g : Int → Option Payload) (hfb : f b = none)
    (hagree : ∀ x, x ≠ b → f x = g x) :
    rowAt (sensorsDataDay day f) b = none
      ∧ (∀ t, t ≠ b →
          rowAt (sensorsDataDay day f) t = rowAt (sensorsDataDay day g) t)
      ∧ ∀ (old : SensorSeries) (t : Int), t ≠ b →
          rowAt (incrementalUpdate old day f) t
            = rowAt (incrementalUpdate old day g) t := by
  have hrows : ∀ t, t ≠ b →
      rowAt (sensorsDataDay day f) t = rowAt (sensorsDataDay day g) t := by
    intro t ht
    simp only [sensorsDataDay]
    rw [rowAt_aggOver f t (bucketsOf day) [], rowAt_aggOver g t (bucketsOf day) [],
      rowstep_fold_congr f g b t ht hagree]
  refine ⟨?_, hrows, ?_⟩
  · rw [sensorsDataDay, rowAt_aggOver f b (bucketsOf day) [],
      rowstep_fold_none f b hfb]
    rfl
  · intro old t ht
    rw [incrementalUpdate, incrementalUpdate, rowAt_mergeUpdate,
      rowAt_mergeUpdate, List.filter_append, List.filter_append,
      List.getLast?_append, List.getLast?_append,
      ← rowAt_eq_getLast?_filter _ t (tsOf_sensorsDataDay_nodup day f),
      ← rowAt_eq_getLast?_filter _ t (tsOf_sensorsDataDay_nodup day g),
      hrows t ht]

theorem C4_witness :
    rowAt (sensorsDataDay 0
        (fun x => if x = 6 then some [⟨"A", [(1 : ℚ)]⟩] else none)) 0 = none
      ∧ rowAt (sensorsDataDay 0
            (fun x => if x = 6 then some [⟨"A", [(1 : ℚ)]⟩] else none)) 6
          = rowAt (sensorsDataDay 0
              (fun x => if x = 0 then some [⟨"B", [(2 : ℚ)]⟩]
                else if x = 6 then some [⟨"A", [(1 : ℚ)]⟩] else none)) 6
      ∧ rowAt (incrementalUpdate [] 0
            (fun x => if x = 6 then some [⟨"A", [(1 : ℚ)]⟩] else none)) 6
          = rowAt (incrementalUpdate [] 0
              (fun x => if x = 0 then some [⟨"B", [(2 : ℚ)]⟩]
                else if x = 6 then some [⟨"A", [(1 : ℚ)]⟩] else none)) 6 := by
  have h := C4_failure_degrades_gracefully 0 0
    (fun x => if x = 6 then some [⟨"A", [(1 : ℚ)]⟩] else none)
    (fun x => if x = 0 then some [⟨"B", [(2 : ℚ)]⟩]
      else if x = 6 then some [⟨"A", [(1 : ℚ)]⟩] else none)
    rfl (fun x hx => by simp [hx])
  exact ⟨h.1, h.2.1 6 (by decide), h.2.2 [] 6 (by decide)⟩

/-- C5 (counterexample): the claim that every merge result is sorted by
ascending timestamp fails — merging the next day's row into a one-row
series leaves the newest row first. -/
theorem C5_counterexample :
    ¬ (tsOf (mergeUpdate [((0 : Int), [("A", (1 : ℚ))])]
        [((24 : Int), [("A", (2 : ℚ))])])).Pairwise (· ≤ ·) := by decide

/-- C5 (amended): the merge output — which is what both update paths
persist — is sorted by strictly *descending* timestamp
(`sort_index(ascending=False)` followed by the duplicate drop). -/
theorem C5_amended_persisted_descending (old new : SensorSeries) :
    (mergeUpdate old new).Pairwise (fun a b => b.1 < a.1) :=
  mergeUpdate_strictDesc old new

/-- C6 (counterexample): a sensor absent from the incoming payload does
*not* always keep its historical values: at a timestamp that is
re-fetched, the whole old row is replaced by the incoming row, so the
absent sensor's old value at that timestamp becomes absent. -/
theorem C6_counterexample :
    valueAt [((0 : Int), [("A", (1 : ℚ)), ("B", (2 : ℚ))])] 0 "B" = some 2
      ∧ valueAt (incrementalUpdate [((0 : Int), [("A", (1 : ℚ)), ("B", (2 : ℚ))])] 0
          (fun b => if b = 0 then some [⟨"A", [(5 : ℚ)]⟩] else none)) 0 "B"
        = none := by decide

/-- C6 (amended): rows of the existing series whose timestamp is *not*
re-fetched in the incoming batch survive the merge unchanged — every
sensor's historical value included; rows at re-fetched timestamps are
replaced wholesale by the incoming row. -/
theorem C6_amended_frame_preservation (old new : SensorSeries) (t : Int)
    (hnd : (tsOf old).Nodup) (hout : t ∉ tsOf new) :
    rowAt (mergeUpdate old new) t = rowAt old t
      ∧ ∀ sid, valueAt (mergeUpdate old new) t sid = valueAt old t sid := by
  have hrow : rowAt (mergeUpdate old new) t = rowAt old t := by
    rw [rowAt_mergeUpdate, List.filter_append, filter_keyEq_nil new t hout,
      List.append_nil, ← rowAt_eq_getLast?_filter old t hnd]
  refine ⟨hrow, fun sid => ?_⟩
  have h1 : valueAt (mergeUpdate old new) t sid
      = cellOf (rowAt (mergeUpdate old new) t) sid := rfl
  have h2 : valueAt old t sid = cellOf (rowAt old t) sid := rfl
  rw [h1, h2, hrow]

theorem C6_amended_witness :
    (tsOf [((0 : Int), [("A", (1 : ℚ)), ("B", (2 : ℚ))])]).Nodup
      ∧ rowAt (mergeUpdate [((0 : Int), [("A", (1 : ℚ)), ("B", (2 : ℚ))])]
            [((24 : Int), [("A", (5 : ℚ))])]) 0
          = rowAt [((0 : Int), [("A", (1 : ℚ)), ("B", (2 : ℚ))])] 0
      ∧ valueAt (mergeUpdate [((0 : Int), [("A", (1 : ℚ)), ("B", (2 : ℚ))])]
            [((24 : Int), [("A", (5 : ℚ))])]) 0 "B"
          = valueAt [((0 : Int), [("A", (1 : ℚ)), ("B", (2 : ℚ))])] 0 "B" := by
  have h := C6_amended_frame_preservation
    [((0 : Int), [("A", (1 : ℚ)), ("B", (2 : ℚ))])]
    [((24 : Int), [("A", (5 : ℚ))])] 0 (by decide) (by decide)
  exact ⟨by decide, h.1, h.2 "B"⟩

/-- C7 (counterexample): loading does not return an empty series with
backfill mode for *every* category whose file is missing: when the
reservoir file exists but the gauge file is missing, the ETL load
neither selects backfill nor produces an empty gauge series — the run
errors out in `pd.read_csv`. -/
theorem C7_counterexample :
    (fun i : Fin 4 => if i = 0 then some ([] : SensorSeries) else none) 1 = none
      ∧ loadOldData (fun i : Fin 4 => if i = 0 then some [] else none)
          ≠ LoadResult.firstRun := by
  constructor
  · rfl
  · have h2 : loadOldData (fun i : Fin 4 => if i = 0 then some [] else none)
        = LoadResult.readError := by
      rw [loadOldData, if_neg (by simp), dif_neg]
      intro hall
      have := hall 1
      simp at this
    rw [h2]
    intro hc
    exact LoadResult.noConfusion hc

/-- C7 (amended): the backend's per-category load returns an empty
series for a missing file; the ETL, however, keys its one global
mode decision on the first (reservoir) file alone: backfill is selected
iff that file is missing, whatever the other categories' files. -/
theorem C7_amended_first_run_signal :
    load_data_category none = ([] : SensorSeries)
      ∧ ∀ files : Fin 4 → Option SensorSeries,
        (loadOldData files = LoadResult.firstRun ↔ files 0 = none) := by
  refine ⟨rfl, fun files => ?_⟩
  constructor
  · intro h
    by_cases h0 : files 0 = none
    · exact h0
    · exfalso
      rw [loadOldData, if_neg h0] at h
      by_cases hall : ∀ i, (files i).isSome
      · rw [dif_pos hall] at h
        exact LoadResult.noConfusion h
      · rw [dif_neg hall] at h
        exact LoadResult.noConfusion h
  · intro h0
    rw [loadOldData, if_pos h0]

/-- C8 (counterexample): the incremental update does not fetch only the
midday bucket — a payload arriving at the day's 00:00 bucket changes the
merged result, which it could not if only the 12:00 bucket were read. -/
theorem C8_counterexample :
    incrementalUpdate [] 0 (fun t => if t = 0 then some [⟨"A", [(1 : ℚ)]⟩] else none)
      ≠ incrementalUpdate [] 0 (fun t => if t = 24 * 0 + 12
          then (if t = 0 then some [⟨"A", [(1 : ℚ)]⟩] else none) else none) := by
  decide

/-- C8 (amended): the incremental update fetches and aggregates all four
canonical buckets (00:00, 06:00, 12:00, 18:00) of the most recent
complete day: the frame's rows all lie on those buckets, and every
bucket whose fetch returns data contributes a row. -/
theorem C8_amended_four_buckets (day : Int) (f : Int → Option Payload) :
    (tsOf (sensorsDataDay day f)).Sublist (bucketsOf day)
      ∧ ∀ b ∈ bucketsOf day, hasData (f b) = true →
          b ∈ tsOf (sensorsDataDay day f) := by
  refine ⟨tsOf_sensorsDataDay day f, ?_⟩
  intro b hb hd
  have h1 : (rowAt (sensorsDataDay day f) b).isSome = true := by
    rw [sensorsDataDay, rowAt_aggOver f b (bucketsOf day) []]
    exact rowstep_fold_isSome f b hd (bucketsOf day) _ hb
  by_contra hmem
  rw [rowAt_none_of_not_mem _ _ hmem] at h1
  simp at h1

theorem C8_amended_witness :
    (tsOf (sensorsDataDay 0
        (fun t => if t = 0 then some [⟨"A", [(1 : ℚ)]⟩] else none))).Sublist
        (bucketsOf 0)
      ∧ 0 ∈ tsOf (sensorsDataDay 0
          (fun t => if t = 0 then some [⟨"A", [(1 : ℚ)]⟩] else none)) :=
  ⟨(C8_amended_four_buckets 0
      (fun t => if t = 0 then some [⟨"A", [(1 : ℚ)]⟩] else none)).1,
    (C8_amended_four_buckets 0
      (fun t => if t = 0 then some [⟨"A", [(1 : ℚ)]⟩] else none)).2
      0 (by decide) (by decide)⟩

/-- C9 (counterexample): merging an empty batch is *not* the identity on
every series: an ascending two-row series (the shape the first-run
backfill persists) comes back reversed. -/
theorem C9_counterexample :
    mergeUpdate [((0 : Int), [("A", (1 : ℚ))]), ((24 : Int), [("A", (2 : ℚ))])] []
      ≠ [((0 : Int), [("A", (1 : ℚ))]), ((24 : Int), [("A", (2 : ℚ))])] := by
  decide

/-- C9 (amended): merging an empty batch is the identity on every series
sorted by strictly descending timestamp — the normal form every
previous merge output (hence every persisted update result) has. -/
theorem C9_amended_empty_batch (old : SensorSeries)
    (h : old.Pairwise (fun a b => b.1 < a.1)) : mergeUpdate old [] = old :=
  mergeUpdate_nil_of_strictDesc old h

theorem C9_amended_witness :
    ([((24 : Int), [("A", (2 : ℚ))]), ((0 : Int), [("A", (1 : ℚ))])] :
        SensorSeries).Pairwise (fun a b => b.1 < a.1)
      ∧ mergeUpdate [((24 : Int), [("A", (2 : ℚ))]), ((0 : Int), [("A", (1 : ℚ))])] []
          = [((24 : Int), [("A", (2 : ℚ))]), ((0 : Int), [("A", (1 : ℚ))])] :=
  ⟨by decide,
    C9_amended_empty_batch
      [((24 : Int), [("A", (2 : ℚ))]), ((0 : Int), [("A", (1 : ℚ))])] (by decide)⟩

/-- C10: merging the same batch twice yields exactly the series the
first merge produced — idempotence under the latest-fetch-wins rule. -/
theorem C10_merge_idempotent (old new : SensorSeries) :
    mergeUpdate (mergeUpdate old new) new = mergeUpdate old new :=
  mergeUpdate_idem old new

end ETL
